import Mathlib

/-!
Shallow embedding of `src/extraction_text.py` (PDF text extraction with a
geometric line-reconstruction fallback), together with proofs about the
claims of the specification.

Coordinates are modelled as rationals (`ℚ`): the Python code computes word
box centers with exact halving `(x0 + x1) / 2` and compares distances, and
all inputs of interest are exact decimals.  The pdfplumber collaborator
(document opening, page iteration, native text retrieval, word-box
extraction) is external to the repository; it is abstracted as plain data:
a `Page` carries the native text the collaborator would return and the list
of word boxes, and `OpenResult` describes the outcome of opening a document
(the pages, or the exception pdfplumber would raise).
-/

namespace Pdf

/-- A word record as produced by `page.extract_words`: the bounding box
edges `x0` (left), `x1` (right), `top`, `bottom`, and the text content. -/
structure Word where
  x0 : ℚ
  x1 : ℚ
  top : ℚ
  bottom : ℚ
  text : String
deriving DecidableEq

/-- Python's `abs` on exact numbers. -/
def ratAbs (q : ℚ) : ℚ := if q < 0 then -q else q

/-- Embedding of `get_directional_distances(word1, word2)`: the absolute
horizontal and vertical distances between the centers of the two word
bounding boxes. -/
def get_directional_distances (word1 word2 : Word) : ℚ × ℚ :=
  (ratAbs ((word2.x0 + word2.x1) / 2 - (word1.x0 + word1.x1) / 2),
   ratAbs ((word2.top + word2.bottom) / 2 - (word1.top + word1.bottom) / 2))

/-- Stable insertion used to model Python's stable `sorted`: `w` is placed
after every already-present element `x` with `le x w`. -/
def insertSorted (le : Word → Word → Bool) (w : Word) : List Word → List Word
  | [] => [w]
  | x :: xs => if le x w then x :: insertSorted le w xs else w :: x :: xs

/-- Stable sort by the boolean relation `le`, modelling Python's stable
`sorted(..., key=...)`. -/
def stableSort (le : Word → Word → Bool) (l : List Word) : List Word :=
  l.foldl (fun acc w => insertSorted le w acc) []

/-- Comparison by the sort key `w['x0']`. -/
def leX0 (a b : Word) : Bool := decide (a.x0 ≤ b.x0)

/-- Comparison by the sort key `(w['top'], w['x0'])` (lexicographic). -/
def leTopLeft (a b : Word) : Bool :=
  decide (a.top < b.top ∨ (a.top = b.top ∧ a.x0 ≤ b.x0))

/-- The call `sorted(current_group, key=lambda w: w['x0'])`. -/
def sortByX0 (l : List Word) : List Word := stableSort leX0 l

/-- The call `sorted(words, key=lambda w: (w['top'], w['x0']))`. -/
def sortByTopLeft (l : List Word) : List Word := stableSort leTopLeft l

/-- State of one scan over the unprocessed words inside the `while True`
loop of `extract_structured_text`: `closest` holds `closest_word` together
with `closest_idx`, and `none` in the two running minima plays the role of
the initial `float('inf')`. -/
structure ScanState where
  closest : Option (ℕ × Word)
  minHorizontalDist : Option ℚ
  minVerticalDist : Option ℚ
  isHorizontal : Bool
deriving DecidableEq

/-- Initial scan state: `closest_word = None`, both minima infinite,
`is_horizontal = True`. -/
def initScan : ScanState := ⟨none, none, none, true⟩

/-- Comparison `d < m` where `m = none` stands for `float('inf')`. -/
def ltOpt (d : ℚ) : Option ℚ → Bool
  | none => true
  | some m => decide (d < m)

/-- One iteration of the candidate scan (`for j, other_word in ...` body,
after the `j in processed` test): the conditional chain
`if h_dist < v_dist and h_dist < min_horizontal_dist: ...` /
`elif v_dist < min_vertical_dist: ...`. -/
def scanStep (current_word : Word) (s : ScanState) (j : ℕ) (w : Word) : ScanState :=
  if (get_directional_distances current_word w).1 < (get_directional_distances current_word w).2
      ∧ ltOpt (get_directional_distances current_word w).1 s.minHorizontalDist then
    { s with minHorizontalDist := some (get_directional_distances current_word w).1,
             closest := some (j, w), isHorizontal := true }
  else if ltOpt (get_directional_distances current_word w).2 s.minVerticalDist then
    { s with minVerticalDist := some (get_directional_distances current_word w).2,
             closest := some (j, w), isHorizontal := false }
  else s

/-- The full candidate scan over all words, skipping processed indices. -/
def scanAll (current_word : Word) (entries : List (ℕ × Word)) (processed : List ℕ) :
    ScanState :=
  entries.foldl (fun s jw => if jw.1 ∈ processed then s else scanStep current_word s jw.1 jw.2)
    initScan

/-- Minimum of two extended distances (`none` is `float('inf')`). -/
def minOpt : Option ℚ → Option ℚ → Option ℚ
  | none, b => b
  | some a, none => some a
  | some a, some b => some (min a b)

/-- Negation of the break test
`min(min_horizontal_dist, min_vertical_dist) > threshold`: the loop
continues only when the minimum is finite and at most `threshold`. -/
def withinThreshold (s : ScanState) (threshold : ℚ) : Bool :=
  match minOpt s.minHorizontalDist s.minVerticalDist with
  | none => false
  | some d => decide (d ≤ threshold)

/-- The `while True` group-extension loop of `extract_structured_text`.
Each non-breaking iteration marks one previously unprocessed word as
processed, so `entries.length + 1` units of fuel always suffice; running
out of fuel behaves like the break.  Returns the finalized groups so far,
the current group, and the processed index list. -/
def extendGroup (entries : List (ℕ × Word)) (threshold : ℚ) :
    ℕ → List ℕ → Word → List Word → List (List Word) →
    List (List Word) × List Word × List ℕ
  | 0, processed, _, current_group, groups => (groups, current_group, processed)
  | fuel + 1, processed, current_word, current_group, groups =>
    let s := scanAll current_word entries processed
    match s.closest with
    | none => (groups, current_group, processed)
    | some (j, w) =>
      if withinThreshold s threshold then
        if s.isHorizontal then
          extendGroup entries threshold fuel (j :: processed) w (current_group ++ [w]) groups
        else
          extendGroup entries threshold fuel (j :: processed) w [w]
            (groups ++ [sortByX0 current_group])
      else (groups, current_group, processed)

/-- The outer `for i, current_word in enumerate(words)` loop: skip processed
indices, otherwise start a group with the word, extend it, and finalize the
remaining current group (`if current_group: ... groups.append(...)`). -/
def buildGroups (entries : List (ℕ × Word)) (threshold : ℚ) :
    List (ℕ × Word) → List ℕ → List (List Word) → List (List Word)
  | [], _, groups => groups
  | (i, w) :: rest, processed, groups =>
    if i ∈ processed then buildGroups entries threshold rest processed groups
    else
      let r := extendGroup entries threshold (entries.length + 1) (i :: processed) w [w] groups
      buildGroups entries threshold rest r.2.2
        (if r.2.1.isEmpty then r.1 else r.1 ++ [sortByX0 r.2.1])

/-- Embedding of `extract_structured_text(page, threshold=15)`.  The word
list stands for the result of `page.extract_words(...)`; the default
threshold 15 is passed explicitly at the call site. -/
def extract_structured_text (words : List Word) (threshold : ℚ) : List (List Word) :=
  if words.isEmpty then []
  else
    buildGroups (sortByTopLeft words).enum threshold (sortByTopLeft words).enum [] []

/-- Python's `str.strip()` (whitespace variant): drop whitespace from both
ends.  Modelled on the character list because the built-in `String.trim`
does not reduce inside the kernel. -/
def strip (s : String) : String :=
  ⟨(((s.data.dropWhile Char.isWhitespace).reverse).dropWhile Char.isWhitespace).reverse⟩

/-- One page as supplied by the pdfplumber collaborator: the native text
returned by `page.extract_text(keep_blank_chars=True)` (`none` models
Python `None`) and the word boxes returned by `page.extract_words`. -/
structure Page where
  nativeText : Option String
  words : List Word
deriving DecidableEq

/-- Outcome of `pdfplumber.open(pdf_path)`: the pages of the opened
document, the `FileNotFoundError` case, or any other exception with its
message. -/
inductive OpenResult where
  | ok (pages : List Page)
  | fileNotFound
  | openFailure (msg : String)

/-- Python truthiness test `text and len(text.strip()) > 0`. -/
def nativeTextUsable : Option String → Bool
  | none => false
  | some s => (s != "") && decide (0 < (strip s).length)

/-- The line emission of the fallback branch: for each group join the word
texts with single spaces, strip, and emit `f"{group_text}\n"` unless the
joined text is empty. -/
def linesText (groups : List (List Word)) : String :=
  groups.foldl
    (fun acc g =>
      if strip (String.intercalate " " (g.map Word.text)) == "" then acc
      else acc ++ strip (String.intercalate " " (g.map Word.text)) ++ "\n")
    ""

/-- The page header `--- Page <n> ---` for the 1-based page number `n`. -/
def pageHeader (n : ℕ) : String := "--- Page " ++ toString n ++ " ---"

/-- The text appended to `full_text` for the page at 0-based index `i`: the
body of the `for i, page in enumerate(pdf.pages)` loop. -/
def pageSection (i : ℕ) (p : Page) : String :=
  if nativeTextUsable p.nativeText then
    "\n--- Page " ++ toString (i + 1) ++ " ---\n" ++ strip (p.nativeText.getD "") ++ "\n"
  else
    if (extract_structured_text p.words 15).isEmpty then
      "\n--- Page " ++ toString (i + 1) ++ " ---\n[No text found]\n"
    else
      "\n--- Page " ++ toString (i + 1) ++ " ---\n" ++
        linesText (extract_structured_text p.words 15)

/-- The part of `pageSection` after its page header (native stripped text,
fallback lines, or the no-text marker). -/
def sectionBody (p : Page) : String :=
  if nativeTextUsable p.nativeText then strip (p.nativeText.getD "") ++ "\n"
  else
    if (extract_structured_text p.words 15).isEmpty then "[No text found]\n"
    else linesText (extract_structured_text p.words 15)

/-- Embedding of `extract_text_from_pdf(pdf_path)`: build `full_text` page
by page and strip it at the very end; the two `except` clauses return the
fixed error strings instead of raising. -/
def extract_text_from_pdf : OpenResult → String
  | OpenResult.ok pages =>
      strip (pages.enum.foldl (fun acc ip => acc ++ pageSection ip.1 ip.2) "")
  | OpenResult.fileNotFound =>
      "Error: The file was not found. Please provide the correct file path."
  | OpenResult.openFailure msg =>
      "Error: An unexpected issue occurred: " ++ msg

/-- Ascending `left` edges: the order invariant of a finalized line group. -/
def SortedX0 (l : List Word) : Prop := l.Pairwise (fun a b => a.x0 ≤ b.x0)

/-- The words attached to entries whose index is not yet processed. -/
def unprocessedWords (entries : List (ℕ × Word)) (P : List ℕ) : List Word :=
  (entries.filter (fun p => decide (p.1 ∉ P))).map Prod.snd

/-- Concrete two-word input for the C1 scenario: centers (0,0) and (10,0). -/
def wLeft : Word := ⟨0, 0, 0, 0, "left"⟩

/-- Companion word of `wLeft`, center (10,0). -/
def wRight : Word := ⟨10, 10, 0, 0, "right"⟩

/-- Concrete anchor word for the C2 scan scenario, center (0,0). -/
def w2A : Word := ⟨0, 0, 0, 0, "A"⟩

/-- Horizontal candidate for the C2 scan scenario, center (5,100). -/
def w2B : Word := ⟨5, 5, 100, 100, "B"⟩

/-- Vertical candidate for the C2 scan scenario, center (100,3). -/
def w2C : Word := ⟨100, 100, 3, 3, "C"⟩

/-- Word at center (0,0) for the C3 scenario. -/
def w3A : Word := ⟨0, 0, 0, 0, "A"⟩

/-- Word at center (20,0) for the C3 scenario. -/
def w3B : Word := ⟨20, 20, 0, 0, "B"⟩

/-- Word at center (0,30) for the C3 scenario. -/
def w3C : Word := ⟨0, 0, 30, 30, "C"⟩

/-- Word at center (0,0) for the C4 counterexample. -/
def w4A : Word := ⟨0, 0, 0, 0, "A"⟩

/-- Word at center (5,100) for the C4 counterexample: vertical center
distance 100 exceeds both the threshold 15 and the horizontal distance 5. -/
def w4B : Word := ⟨5, 5, 100, 100, "B"⟩

/-- Word at center (20,100), used to instantiate the amended C4 claim. -/
def w4W : Word := ⟨20, 20, 100, 100, "B"⟩

/-- Word at center (0,0) for the diagonal-tie scenario of C5. -/
def w5A : Word := ⟨0, 0, 0, 0, "A"⟩

/-- Word at center (3,3): exactly on the diagonal from `w5A`. -/
def w5B : Word := ⟨3, 3, 3, 3, "B"⟩

/-- Concrete page whose native text is whitespace only, for claim C7. -/
def pageBlank : Page := ⟨some "   ", []⟩

/-! ### Basic lemmas about the distance function -/

theorem ratAbs_eq_abs (q : ℚ) : ratAbs q = |q| := by
  unfold ratAbs
  split
  · exact (abs_of_neg (by assumption)).symm
  · exact (abs_of_nonneg (le_of_not_lt (by assumption))).symm

theorem get_directional_distances_symm (a b : Word) :
    get_directional_distances b a = get_directional_distances a b := by
  simp [get_directional_distances, ratAbs_eq_abs, abs_sub_comm]

/-! ### Lemmas about the stable sorts -/

theorem insertSorted_perm (le : Word → Word → Bool) (w : Word) (l : List Word) :
    (insertSorted le w l).Perm (w :: l) := by
  induction l with
  | nil => exact List.Perm.refl _
  | cons x xs ih =>
    unfold insertSorted
    split
    · exact (ih.cons x).trans (List.Perm.swap w x xs)
    · exact List.Perm.refl _

theorem mem_insertSorted {le : Word → Word → Bool} {w y : Word} {l : List Word} :
    y ∈ insertSorted le w l ↔ y = w ∨ y ∈ l := by
  rw [(insertSorted_perm le w l).mem_iff, List.mem_cons]

theorem foldl_insertSorted_perm (le : Word → Word → Bool) :
    ∀ (l acc : List Word),
      (l.foldl (fun acc w => insertSorted le w acc) acc).Perm (acc ++ l) := by
  intro l
  induction l with
  | nil => intro acc; simp
  | cons w xs ih =>
    intro acc
    have h1 : ((w :: xs).foldl (fun acc w => insertSorted le w acc) acc)
        = xs.foldl (fun acc w => insertSorted le w acc) (insertSorted le w acc) := by simp
    rw [h1]
    exact (ih (insertSorted le w acc)).trans
      (((insertSorted_perm le w acc).append_right xs).trans List.perm_middle.symm)

theorem stableSort_perm (le : Word → Word → Bool) (l : List Word) :
    (stableSort le l).Perm l := by
  simpa [stableSort] using foldl_insertSorted_perm le l []

theorem sortByX0_perm (l : List Word) : (sortByX0 l).Perm l := stableSort_perm _ l

theorem sortByTopLeft_perm (l : List Word) : (sortByTopLeft l).Perm l := stableSort_perm _ l

theorem sortByX0_ne_nil {l : List Word} (h : l ≠ []) : sortByX0 l ≠ [] := by
  intro hc
  exact h (List.Perm.eq_nil ((sortByX0_perm l).symm.trans (hc ▸ List.Perm.refl _)))

theorem sortedX0_insertSorted {w : Word} {l : List Word} (h : SortedX0 l) :
    SortedX0 (insertSorted leX0 w l) := by
  induction l with
  | nil => exact List.pairwise_singleton _ w
  | cons x xs ih =>
    rcases List.pairwise_cons.1 h with ⟨hx, hxs⟩
    unfold insertSorted
    split
    · refine List.pairwise_cons.2 ⟨?_, ih hxs⟩
      intro y hy
      rcases mem_insertSorted.1 hy with rfl | hy
      · exact of_decide_eq_true (by assumption)
      · exact hx y hy
    · refine List.pairwise_cons.2 ⟨?_, h⟩
      intro y hy
      have hwx : w.x0 ≤ x.x0 := le_of_not_le (by simpa [leX0] using (by assumption : ¬ leX0 x w = true))
      rcases List.mem_cons.1 hy with rfl | hy
      · exact hwx
      · exact hwx.trans (hx y hy)

theorem sortedX0_sortByX0 (l : List Word) : SortedX0 (sortByX0 l) := by
  suffices h : ∀ (l acc : List Word), SortedX0 acc →
      SortedX0 (l.foldl (fun acc w => insertSorted leX0 w acc) acc) by
    exact h l [] List.Pairwise.nil
  intro l
  induction l with
  | nil => intro acc hacc; simpa using hacc
  | cons w xs ih =>
    intro acc hacc
    simpa using ih (insertSorted leX0 w acc) (sortedX0_insertSorted hacc)

/-! ### Lemmas about the candidate scan -/

theorem scanStep_closest (cur : Word) (s : ScanState) (j : ℕ) (w : Word) :
    (scanStep cur s j w).closest = s.closest ∨ (scanStep cur s j w).closest = some (j, w) := by
  unfold scanStep
  split
  · exact Or.inr rfl
  split
  · exact Or.inr rfl
  · exact Or.inl rfl

theorem scanFold_closest (cur : Word) (processed : List ℕ) :
    ∀ (l : List (ℕ × Word)) (s : ScanState) (j : ℕ) (w : Word),
      (l.foldl (fun s jw => if jw.1 ∈ processed then s else scanStep cur s jw.1 jw.2) s).closest
          = some (j, w) →
      s.closest = some (j, w) ∨ ((j, w) ∈ l ∧ j ∉ processed) := by
  intro l
  induction l with
  | nil => intro s j w h; exact Or.inl h
  | cons x xs ih =>
    intro s j w h
    rw [List.foldl_cons] at h
    rcases ih _ j w h with h1 | h1
    · by_cases hx : x.1 ∈ processed
      · rw [if_pos hx] at h1
        exact Or.inl h1
      · rw [if_neg hx] at h1
        rcases scanStep_closest cur s x.1 x.2 with h2 | h2
        · exact Or.inl (h2 ▸ h1)
        · rw [h2] at h1
          rcases Option.some.inj h1 with h3
          refine Or.inr ⟨?_, ?_⟩
          · rw [← h3]; exact List.mem_cons_self x xs
          · rw [show j = x.1 from congrArg Prod.fst h3.symm]; exact hx
    · exact Or.inr ⟨List.mem_cons_of_mem x h1.1, h1.2⟩

theorem scanAll_closest {cur : Word} {entries : List (ℕ × Word)} {processed : List ℕ}
    {j : ℕ} {w : Word} (h : (scanAll cur entries processed).closest = some (j, w)) :
    (j, w) ∈ entries ∧ j ∉ processed := by
  rcases scanFold_closest cur processed entries initScan j w h with h1 | h1
  · exact absurd h1 (by simp [initScan])
  · exact h1

/-! ### The order invariant of finalized groups (claim C6) -/

theorem extendGroup_sorted (entries : List (ℕ × Word)) (t : ℚ) :
    ∀ (fuel : ℕ) (P : List ℕ) (cur : Word) (cg : List Word) (gs : List (List Word)),
      (∀ g ∈ gs, SortedX0 g) →
      ∀ g ∈ (extendGroup entries t fuel P cur cg gs).1, SortedX0 g := by
  intro fuel
  induction fuel with
  | zero => intro P cur cg gs hgs; simpa [extendGroup] using hgs
  | succ fuel ih =>
    intro P cur cg gs hgs
    rw [extendGroup]
    cases hc : (scanAll cur entries P).closest with
    | none => simpa using hgs
    | some jw =>
      rcases jw with ⟨j, w⟩
      simp only []
      split
      · split
        · exact ih _ _ _ _ hgs
        · refine ih _ _ _ _ ?_
          intro g hg
          rcases List.mem_append.1 hg with hg | hg
          · exact hgs g hg
          · rw [List.mem_singleton.1 hg]
            exact sortedX0_sortByX0 cg
      · simpa using hgs

theorem buildGroups_sorted (entries : List (ℕ × Word)) (t : ℚ) :
    ∀ (rest : List (ℕ × Word)) (P : List ℕ) (gs : List (List Word)),
      (∀ g ∈ gs, SortedX0 g) →
      ∀ g ∈ buildGroups entries t rest P gs, SortedX0 g := by
  intro rest
  induction rest with
  | nil => intro P gs hgs; simpa [buildGroups] using hgs
  | cons iw rest ih =>
    intro P gs hgs
    rcases iw with ⟨i, w⟩
    rw [buildGroups]
    split
    · exact ih _ _ hgs
    · refine ih _ _ ?_
      split
      · exact extendGroup_sorted entries t _ _ _ _ _ hgs
      · intro g hg
        rcases List.mem_append.1 hg with hg | hg
        · exact extendGroup_sorted entries t _ _ _ _ _ hgs g hg
        · rw [List.mem_singleton.1 hg]
          exact sortedX0_sortByX0 _

/-! ### Nonemptiness of finalized groups -/

theorem extendGroup_nonempty (entries : List (ℕ × Word)) (t : ℚ) :
    ∀ (fuel : ℕ) (P : List ℕ) (cur : Word) (cg : List Word) (gs : List (List Word)),
      cg ≠ [] → (∀ g ∈ gs, g ≠ []) →
      (∀ g ∈ (extendGroup entries t fuel P cur cg gs).1, g ≠ []) ∧
        (extendGroup entries t fuel P cur cg gs).2.1 ≠ [] := by
  intro fuel
  induction fuel with
  | zero => intro P cur cg gs hcg hgs; simpa [extendGroup] using ⟨hgs, hcg⟩
  | succ fuel ih =>
    intro P cur cg gs hcg hgs
    rw [extendGroup]
    cases hc : (scanAll cur entries P).closest with
    | none => simpa using ⟨hgs, hcg⟩
    | some jw =>
      rcases jw with ⟨j, w⟩
      simp only []
      split
      · split
        · exact ih _ _ _ _ (by simp) hgs
        · refine ih _ _ _ _ (by simp) ?_
          intro g hg
          rcases List.mem_append.1 hg with hg | hg
          · exact hgs g hg
          · rw [List.mem_singleton.1 hg]
            exact sortByX0_ne_nil hcg
      · simpa using ⟨hgs, hcg⟩

theorem buildGroups_nonempty (entries : List (ℕ × Word)) (t : ℚ) :
    ∀ (rest : List (ℕ × Word)) (P : List ℕ) (gs : List (List Word)),
      (∀ g ∈ gs, g ≠ []) →
      ∀ g ∈ buildGroups entries t rest P gs, g ≠ [] := by
  intro rest
  induction rest with
  | nil => intro P gs hgs; simpa [buildGroups] using hgs
  | cons iw rest ih =>
    intro P gs hgs
    rcases iw with ⟨i, w⟩
    rw [buildGroups]
    split
    · exact ih _ _ hgs
    · refine ih _ _ ?_
      have hr := extendGroup_nonempty entries t (entries.length + 1) (i :: P) w [w] gs
        (by simp) hgs
      split
      · exact hr.1
      · intro g hg
        rcases List.mem_append.1 hg with hg | hg
        · exact hr.1 g hg
        · rw [List.mem_singleton.1 hg]
          exact sortByX0_ne_nil hr.2

/-! ### The partition invariant (claim C10) -/

theorem filter_notMem_cons {l : List (ℕ × Word)} {j : ℕ} {P : List ℕ}
    (h : ∀ p ∈ l, p.1 ≠ j) :
    l.filter (fun p => decide (p.1 ∉ j :: P)) = l.filter (fun p => decide (p.1 ∉ P)) := by
  refine List.filter_congr ?_
  intro p hp
  simp [List.mem_cons, h p hp]

theorem unprocessed_move :
    ∀ (entries : List (ℕ × Word)) (P : List ℕ) (j : ℕ) (w : Word),
      (entries.map Prod.fst).Nodup → (j, w) ∈ entries → j ∉ P →
      (unprocessedWords entries P).Perm (w :: unprocessedWords entries (j :: P)) := by
  intro entries
  induction entries with
  | nil => intro P j w _ hmem _; exact absurd hmem (List.not_mem_nil _)
  | cons p rest ih =>
    intro P j w hnd hmem hj
    have hnd1 : p.1 ∉ rest.map Prod.fst := (List.nodup_cons.1 (by simpa using hnd)).1
    have hnd2 : (rest.map Prod.fst).Nodup := (List.nodup_cons.1 (by simpa using hnd)).2
    by_cases hpj : p.1 = j
    · have hpw : p = (j, w) := by
        rcases List.mem_cons.1 hmem with h | h
        · exact h.symm
        · exact absurd (hpj ▸ List.mem_map_of_mem Prod.fst h) hnd1
      subst hpw
      have hrest : ∀ q ∈ rest, q.1 ≠ j := by
        intro q hq hqj
        exact hnd1 (by simpa [hqj] using List.mem_map_of_mem Prod.fst hq)
      unfold unprocessedWords
      rw [List.filter_cons, List.filter_cons]
      rw [if_pos (by simpa using hj), if_neg (by simp [hpj])]
      rw [filter_notMem_cons hrest]
      simp [hpj]
    · have hmem2 : (j, w) ∈ rest := by
        rcases List.mem_cons.1 hmem with h | h
        · exact absurd (congrArg Prod.fst h.symm) hpj
        · exact h
      have ihr := ih P j w hnd2 hmem2 hj
      unfold unprocessedWords at ihr ⊢
      rw [List.filter_cons, List.filter_cons]
      by_cases hpP : p.1 ∈ P
      · rw [if_neg (by simpa using hpP), if_neg (by simp [List.mem_cons]; exact fun _ => hpP)]
        exact ihr
      · rw [if_pos (by simpa using hpP), if_pos (by simp [List.mem_cons, hpj, hpP])]
        simp only [List.map_cons]
        exact (ihr.cons p.2).trans (List.Perm.swap w p.2 _)

theorem extendGroup_processed_mono (entries : List (ℕ × Word)) (t : ℚ) :
    ∀ (fuel : ℕ) (P : List ℕ) (cur : Word) (cg : List Word) (gs : List (List Word)),
      ∀ x ∈ P, x ∈ (extendGroup entries t fuel P cur cg gs).2.2 := by
  intro fuel
  induction fuel with
  | zero => intro P cur cg gs x hx; simpa [extendGroup] using hx
  | succ fuel ih =>
    intro P cur cg gs x hx
    rw [extendGroup]
    cases hc : (scanAll cur entries P).closest with
    | none => simpa using hx
    | some jw =>
      rcases jw with ⟨j, w⟩
      simp only []
      split
      · split
        · exact ih _ _ _ _ x (List.mem_cons_of_mem j hx)
        · exact ih _ _ _ _ x (List.mem_cons_of_mem j hx)
      · simpa using hx

theorem extendGroup_join (entries : List (ℕ × Word)) (t : ℚ)
    (hnd : (entries.map Prod.fst).Nodup) :
    ∀ (fuel : ℕ) (P : List ℕ) (cur : Word) (cg : List Word) (gs : List (List Word)),
      ((extendGroup entries t fuel P cur cg gs).1.flatten ++
        ((extendGroup entries t fuel P cur cg gs).2.1 ++
          unprocessedWords entries (extendGroup entries t fuel P cur cg gs).2.2)).Perm
        (gs.flatten ++ (cg ++ unprocessedWords entries P)) := by
  intro fuel
  induction fuel with
  | zero => intro P cur cg gs; simp [extendGroup]
  | succ fuel ih =>
    intro P cur cg gs
    rw [extendGroup]
    cases hc : (scanAll cur entries P).closest with
    | none => simp
    | some jw =>
      rcases jw with ⟨j, w⟩
      rcases scanAll_closest hc with ⟨hmem, hj⟩
      have hmove : (unprocessedWords entries P).Perm
          (w :: unprocessedWords entries (j :: P)) :=
        unprocessed_move entries P j w hnd hmem hj
      simp only []
      split
      · split
        · refine (ih (j :: P) w (cg ++ [w]) gs).trans ?_
          rw [List.append_assoc cg [w]]
          exact ((hmove.symm.append_left cg).append_left gs.flatten)
        · refine (ih (j :: P) w [w] (gs ++ [sortByX0 cg])).trans ?_
          have h1 : ((gs ++ [sortByX0 cg]).flatten ++
              ([w] ++ unprocessedWords entries (j :: P)))
              = gs.flatten ++ (sortByX0 cg ++ (w :: unprocessedWords entries (j :: P))) := by
            simp [List.flatten_append, List.append_assoc]
          rw [h1]
          exact ((List.Perm.append (sortByX0_perm cg) hmove.symm).append_left gs.flatten)
      · simp

theorem buildGroups_flatten (entries : List (ℕ × Word)) (t : ℚ)
    (hnd : (entries.map Prod.fst).Nodup) :
    ∀ (rest : List (ℕ × Word)) (P : List ℕ) (gs : List (List Word)),
      rest.Sublist entries → (∀ p ∈ entries, p.1 ∉ P → p ∈ rest) →
      (buildGroups entries t rest P gs).flatten.Perm
        (gs.flatten ++ unprocessedWords entries P) := by
  intro rest
  induction rest with
  | nil =>
    intro P gs _ hcov
    have hU : unprocessedWords entries P = [] := by
      unfold unprocessedWords
      rw [List.filter_eq_nil_iff.2 (fun p hp => by simpa using fun h => (hcov p hp h))]
      rfl
    simp [buildGroups, hU]
  | cons iw rest ih =>
    intro P gs hsub hcov
    rcases iw with ⟨i, w⟩
    rw [buildGroups]
    split
    · rename_i hiP
      refine ih P gs (List.sublist_of_cons_sublist hsub) ?_
      intro p hp hpP
      rcases List.mem_cons.1 (hcov p hp hpP) with h | h
      · exact absurd (congrArg Prod.fst h ▸ hiP) hpP
      · exact h
    · rename_i hiP
      have hmemi : (i, w) ∈ entries := hsub.subset (List.mem_cons_self _ _)
      have hjoin := extendGroup_join entries t hnd (entries.length + 1) (i :: P) w [w] gs
      have hmono := extendGroup_processed_mono entries t (entries.length + 1) (i :: P) w [w] gs
      have hmove : (unprocessedWords entries P).Perm
          (w :: unprocessedWords entries (i :: P)) :=
        unprocessed_move entries P i w hnd hmemi hiP
      have hcov2 : ∀ p ∈ entries,
          p.1 ∉ (extendGroup entries t (entries.length + 1) (i :: P) w [w] gs).2.2 →
          p ∈ rest := by
        intro p hp hpP
        have hpi : p.1 ∉ i :: P := fun h => hpP (hmono p.1 h)
        rcases List.mem_cons.1 (hcov p hp (fun h => hpi (List.mem_cons_of_mem i h))) with h | h
        · exfalso
          apply hpi
          have hfst : p.1 = i := by rw [h]
          rw [hfst]
          exact List.mem_cons_self i P
        · exact h
      refine (ih _ _ (List.sublist_of_cons_sublist hsub) hcov2).trans ?_
      have hflat : ((if (extendGroup entries t (entries.length + 1) (i :: P) w [w] gs).2.1.isEmpty
            then (extendGroup entries t (entries.length + 1) (i :: P) w [w] gs).1
            else (extendGroup entries t (entries.length + 1) (i :: P) w [w] gs).1 ++
              [sortByX0 (extendGroup entries t (entries.length + 1) (i :: P) w [w] gs).2.1]).flatten
          ++ unprocessedWords entries
              (extendGroup entries t (entries.length + 1) (i :: P) w [w] gs).2.2).Perm
          ((extendGroup entries t (entries.length + 1) (i :: P) w [w] gs).1.flatten ++
            ((extendGroup entries t (entries.length + 1) (i :: P) w [w] gs).2.1 ++
              unprocessedWords entries
                (extendGroup entries t (entries.length + 1) (i :: P) w [w] gs).2.2)) := by
        split
        · rename_i hemp
          rw [List.isEmpty_iff.1 hemp]
          simp
        · simp only [List.flatten_append, List.flatten_cons, List.flatten_nil,
            List.append_nil, List.append_assoc]
          exact ((sortByX0_perm _).append
            (List.Perm.refl _)).append_left _
      refine hflat.trans ?_
      refine hjoin.trans ?_
      simpa using (hmove.symm.append_left gs.flatten)

theorem extract_flatten_perm (words : List Word) (t : ℚ) :
    (extract_structured_text words t).flatten.Perm words := by
  unfold extract_structured_text
  split
  · rename_i h
    rw [List.isEmpty_iff.1 h]
    exact List.Perm.refl _
  · have hnd : (((sortByTopLeft words).enum).map Prod.fst).Nodup := by
      rw [List.enum_map_fst]; exact List.nodup_range _
    have h := buildGroups_flatten ((sortByTopLeft words).enum) t hnd
      ((sortByTopLeft words).enum) [] [] (List.Sublist.refl _) (fun p hp _ => hp)
    have hU : unprocessedWords ((sortByTopLeft words).enum) [] = sortByTopLeft words := by
      unfold unprocessedWords
      rw [List.filter_eq_self.2 (fun p _ => by simp)]
      exact List.enum_map_snd _
    rw [hU] at h
    refine List.Perm.trans ?_ (sortByTopLeft_perm words)
    simpa using h

theorem extract_groups_ne_nil (words : List Word) (t : ℚ) :
    ∀ g ∈ extract_structured_text words t, g ≠ [] := by
  unfold extract_structured_text
  split
  · intro g hg; exact absurd hg (List.not_mem_nil g)
  · exact buildGroups_nonempty _ t _ [] [] (by intro g hg; exact absurd hg (List.not_mem_nil g))

theorem stableSort_pair (le : Word → Word → Bool) (a b : Word) :
    stableSort le [a, b] = if le a b then [a, b] else [b, a] := by
  simp [stableSort, insertSorted]

/-! ### Evaluation of two-word inputs -/

theorem pair_sameRow (a b : Word) (t : ℚ)
    (hv : (get_directional_distances a b).2 = 0)
    (h0 : 0 < (get_directional_distances a b).1)
    (ht : (get_directional_distances a b).1 < t) :
    buildGroups [(0, a), (1, b)] t [(0, a), (1, b)] [] [] = [[a], [b]] := by
  have h1 : ¬ (get_directional_distances a b).1 < 0 := h0.asymm
  have h2 : (0 : ℚ) ≤ t := le_of_lt (h0.trans ht)
  simp [buildGroups, extendGroup, scanAll, scanStep, withinThreshold, minOpt, ltOpt,
    initScan, sortByX0, stableSort, insertSorted, hv, h1, h2]

theorem pair_far (a b : Word) (t : ℚ)
    (hlt : (get_directional_distances a b).1 < (get_directional_distances a b).2)
    (hgt : t < (get_directional_distances a b).1) :
    buildGroups [(0, a), (1, b)] t [(0, a), (1, b)] [] [] = [[a], [b]] := by
  have h1 : ¬ (get_directional_distances a b).1 ≤ t := not_le.mpr hgt
  simp [buildGroups, extendGroup, scanAll, scanStep, withinThreshold, minOpt, ltOpt,
    initScan, sortByX0, stableSort, insertSorted, hlt, h1]

theorem extract_pair_cases (w1 w2 : Word) (t : ℚ)
    (h12 : buildGroups [(0, w1), (1, w2)] t [(0, w1), (1, w2)] [] [] = [[w1], [w2]])
    (h21 : buildGroups [(0, w2), (1, w1)] t [(0, w2), (1, w1)] [] [] = [[w2], [w1]]) :
    extract_structured_text [w1, w2] t = [[w1], [w2]] ∨
      extract_structured_text [w1, w2] t = [[w2], [w1]] := by
  unfold extract_structured_text
  rw [if_neg (by simp)]
  have hp : sortByTopLeft [w1, w2] = if leTopLeft w1 w2 then [w1, w2] else [w2, w1] :=
    stableSort_pair leTopLeft w1 w2
  by_cases hle : leTopLeft w1 w2
  · rw [hp, if_pos hle] at *
    left
    rw [show ([w1, w2] : List Word).enum = [(0, w1), (1, w2)] from rfl]
    exact h12
  · rw [hp, if_neg hle] at *
    right
    rw [show ([w2, w1] : List Word).enum = [(0, w2), (1, w1)] from rfl]
    exact h21

/-! ### Concrete evaluations used by counterexamples and witnesses -/

theorem extract_wLeftRight_eval :
    extract_structured_text [wLeft, wRight] 15 = [[wLeft], [wRight]] := by
  norm_num [extract_structured_text, buildGroups, extendGroup, scanAll, scanStep,
    withinThreshold, minOpt, ltOpt, initScan, sortByTopLeft, sortByX0, stableSort,
    insertSorted, leTopLeft, leX0, get_directional_distances, ratAbs,
    List.enum, List.enumFrom, wLeft, wRight]

theorem extract_three_eval :
    extract_structured_text [w3A, w3B, w3C] 15 = [[w3A, w3C], [w3B]] := by
  norm_num [extract_structured_text, buildGroups, extendGroup, scanAll, scanStep,
    withinThreshold, minOpt, ltOpt, initScan, sortByTopLeft, sortByX0, stableSort,
    insertSorted, leTopLeft, leX0, get_directional_distances, ratAbs,
    List.enum, List.enumFrom, w3A, w3B, w3C]

theorem extract_w4_eval :
    extract_structured_text [w4A, w4B] 15 = [[w4A, w4B]] := by
  norm_num [extract_structured_text, buildGroups, extendGroup, scanAll, scanStep,
    withinThreshold, minOpt, ltOpt, initScan, sortByTopLeft, sortByX0, stableSort,
    insertSorted, leTopLeft, leX0, get_directional_distances, ratAbs,
    List.enum, List.enumFrom, w4A, w4B]

theorem extract_single_eval :
    extract_structured_text [w5A] 15 = [[w5A]] := by
  norm_num [extract_structured_text, buildGroups, extendGroup, scanAll, scanStep,
    withinThreshold, minOpt, ltOpt, initScan, sortByTopLeft, sortByX0, stableSort,
    insertSorted, leTopLeft, leX0, get_directional_distances, ratAbs,
    List.enum, List.enumFrom, w5A]

theorem extract_groups_sortedX0 (words : List Word) (t : ℚ) :
    ∀ g ∈ extract_structured_text words t, SortedX0 g := by
  unfold extract_structured_text
  split
  · intro g hg; exact absurd hg (List.not_mem_nil g)
  · exact buildGroups_sorted _ t _ [] [] (by intro g hg; exact absurd hg (List.not_mem_nil g))

/-! ### Claims C1 to C5 -/

/-- C1, counterexample: the two words `wLeft`, `wRight` have equal vertical
center coordinates and a horizontal center distance 10 with 0 < 10 < 15,
yet no returned LineGroup contains both words: the code classifies the
candidate as vertical (`h_dist < v_dist` is false because `v_dist = 0`) and
so finalizes two singleton groups, refuting the claim that such words end
up in the same LineGroup. -/
theorem claim_C1_counterexample :
    (get_directional_distances wLeft wRight).2 = 0 ∧
    0 < (get_directional_distances wLeft wRight).1 ∧
    (get_directional_distances wLeft wRight).1 < 15 ∧
    ¬ ∃ g ∈ extract_structured_text [wLeft, wRight] 15, wLeft ∈ g ∧ wRight ∈ g := by
  refine ⟨by norm_num [get_directional_distances, ratAbs, wLeft, wRight],
    by norm_num [get_directional_distances, ratAbs, wLeft, wRight],
    by norm_num [get_directional_distances, ratAbs, wLeft, wRight], ?_⟩
  rw [extract_wLeftRight_eval]
  simp [wLeft, wRight]

/-- C1 (amended): for every input of two words whose centers differ only in
the horizontal axis (equal vertical center coordinates) by a positive
amount less than the threshold, `extract_structured_text` returns two
singleton LineGroups, one per word: with `v_dist = 0` the neighbor is
classified vertical, so the current line is finalized and the neighbor
starts a new line. -/
theorem claim_C1 (w1 w2 : Word) (t : ℚ)
    (hv : (get_directional_distances w1 w2).2 = 0)
    (h0 : 0 < (get_directional_distances w1 w2).1)
    (ht : (get_directional_distances w1 w2).1 < t) :
    extract_structured_text [w1, w2] t = [[w1], [w2]] ∨
      extract_structured_text [w1, w2] t = [[w2], [w1]] := by
  have hs := get_directional_distances_symm w1 w2
  exact extract_pair_cases w1 w2 t (pair_sameRow w1 w2 t hv h0 ht)
    (pair_sameRow w2 w1 t (by rw [hs]; exact hv) (by rw [hs]; exact h0) (by rw [hs]; exact ht))

/-- C1, witness: the amended claim instantiated at `wLeft`, `wRight` with
threshold 15. -/
theorem claim_C1_witness :
    extract_structured_text [wLeft, wRight] 15 = [[wLeft], [wRight]] ∨
      extract_structured_text [wLeft, wRight] 15 = [[wRight], [wLeft]] :=
  claim_C1 wLeft wRight 15
    (by norm_num [get_directional_distances, ratAbs, wLeft, wRight])
    (by norm_num [get_directional_distances, ratAbs, wLeft, wRight])
    (by norm_num [get_directional_distances, ratAbs, wLeft, wRight])

/-- C2, counterexample: scanning from `w2A` with candidates `w2B` (scanned
first, horizontal, `h_dist = 5`) and `w2C` (scanned second, vertical,
`v_dist = 3`), both running minima are recorded, yet the chosen closest
word is the vertical candidate `w2C`, not the recorded horizontal one: the
horizontal candidate does not take precedence. -/
theorem claim_C2_counterexample :
    (scanAll w2A [(0, w2A), (1, w2B), (2, w2C)] [0]).minHorizontalDist = some 5 ∧
    (scanAll w2A [(0, w2A), (1, w2B), (2, w2C)] [0]).minVerticalDist = some 3 ∧
    (scanAll w2A [(0, w2A), (1, w2B), (2, w2C)] [0]).closest = some (2, w2C) ∧
    (scanAll w2A [(0, w2A), (1, w2B), (2, w2C)] [0]).isHorizontal = false := by
  norm_num [scanAll, scanStep, ltOpt, initScan, get_directional_distances, ratAbs,
    w2A, w2B, w2C]

/-- C2 (amended): the closest word is simply the last candidate that updated
either running minimum: any candidate classified vertical that improves the
vertical minimum overwrites the recorded closest word, even when a
horizontal candidate was already recorded, so the vertical candidate can
win although a horizontal one exists. -/
theorem claim_C2 (cur w : Word) (s : ScanState) (j : ℕ)
    (hnh : ¬ (get_directional_distances cur w).1 < (get_directional_distances cur w).2)
    (hv : ltOpt (get_directional_distances cur w).2 s.minVerticalDist = true) :
    (scanStep cur s j w).closest = some (j, w) ∧
      (scanStep cur s j w).isHorizontal = false := by
  unfold scanStep
  rw [if_neg (by rintro ⟨h1, _⟩; exact hnh h1), if_pos hv]
  exact ⟨rfl, rfl⟩

/-- C2, witness: the amended claim instantiated at a state that already
recorded the horizontal candidate `w2B` with minimum 5, scanned against the
vertical candidate `w2C`. -/
theorem claim_C2_witness :
    (scanStep w2A ⟨some (1, w2B), some 5, none, true⟩ 2 w2C).closest = some (2, w2C) ∧
      (scanStep w2A ⟨some (1, w2B), some 5, none, true⟩ 2 w2C).isHorizontal = false :=
  claim_C2 w2A w2C ⟨some (1, w2B), some 5, none, true⟩ 2
    (by norm_num [get_directional_distances, ratAbs, w2A, w2C]) rfl

/-- C3, counterexample: on the three words with centers (0,0), (20,0),
(0,30) and threshold 15 the function does not return three LineGroups: the
word below the first one is classified horizontal (its `h_dist` is 0, less
than its `v_dist` 30) and `min(0, 0) ≤ 15`, so it is appended to the first
word's line, giving only two groups. -/
theorem claim_C3_counterexample :
    (extract_structured_text [w3A, w3B, w3C] 15).length ≠ 3 := by
  rw [extract_three_eval]
  decide

/-- C3 (amended): for the three-word input with box centers (0,0), (20,0),
(0,30) and threshold 15, `extract_structured_text` returns exactly two
LineGroups: the words at (0,0) and (0,30) are grouped together (in stable
`x0` order) and the word at (20,0) is a singleton. -/
theorem claim_C3 :
    extract_structured_text [w3A, w3B, w3C] 15 = [[w3A, w3C], [w3B]] :=
  extract_three_eval

/-- C4, counterexample: the words `w4A`, `w4B` have vertical center
distance 100, exceeding both the threshold 15 and their horizontal center
distance 5, yet they are placed in the same LineGroup: the candidate is
classified horizontal (`5 < 100`) and its `h_dist` 5 is within the
threshold, refuting the claim that such words end up in different
LineGroups. -/
theorem claim_C4_counterexample :
    15 < (get_directional_distances w4A w4B).2 ∧
    (get_directional_distances w4A w4B).1 < (get_directional_distances w4A w4B).2 ∧
    ∃ g ∈ extract_structured_text [w4A, w4B] 15, w4A ∈ g ∧ w4B ∈ g := by
  refine ⟨by norm_num [get_directional_distances, ratAbs, w4A, w4B],
    by norm_num [get_directional_distances, ratAbs, w4A, w4B],
    [w4A, w4B], ?_, ?_, ?_⟩
  · rw [extract_w4_eval]; exact List.mem_singleton_self _
  · exact List.mem_cons_self _ _
  · exact List.mem_cons_of_mem _ (List.mem_singleton_self _)

/-- C4 (amended): for every input of two words whose vertical center
distance exceeds the threshold and their horizontal center distance, and
whose horizontal center distance also exceeds the threshold,
`extract_structured_text` places the two words in different (singleton)
LineGroups.  (Without the extra condition the candidate is classified
horizontal and joined to the same line whenever its horizontal distance is
within the threshold.) -/
theorem claim_C4 (w1 w2 : Word) (t : ℚ)
    (hvt : t < (get_directional_distances w1 w2).2)
    (hhv : (get_directional_distances w1 w2).1 < (get_directional_distances w1 w2).2)
    (hht : t < (get_directional_distances w1 w2).1) :
    extract_structured_text [w1, w2] t = [[w1], [w2]] ∨
      extract_structured_text [w1, w2] t = [[w2], [w1]] := by
  have hs := get_directional_distances_symm w1 w2
  exact extract_pair_cases w1 w2 t (pair_far w1 w2 t hhv hht)
    (pair_far w2 w1 t (by rw [hs]; exact hhv) (by rw [hs]; exact hht))

/-- C4, witness: the amended claim instantiated at `w4A`, `w4W` (centers
(0,0) and (20,100)) with threshold 15. -/
theorem claim_C4_witness :
    extract_structured_text [w4A, w4W] 15 = [[w4A], [w4W]] ∨
      extract_structured_text [w4A, w4W] 15 = [[w4W], [w4A]] :=
  claim_C4 w4A w4W 15
    (by norm_num [get_directional_distances, ratAbs, w4A, w4W])
    (by norm_num [get_directional_distances, ratAbs, w4A, w4W])
    (by norm_num [get_directional_distances, ratAbs, w4A, w4W])

/-- C5: a candidate whose horizontal center distance equals its vertical
center distance is never classified horizontal by the scan step: the step
either leaves the scan state unchanged or records the candidate as the
vertical one (`is_horizontal = False`), because the strict comparison
`h_dist < v_dist` fails on the tie. -/
theorem claim_C5 (cur w : Word) (s : ScanState) (j : ℕ)
    (h : (get_directional_distances cur w).1 = (get_directional_distances cur w).2) :
    scanStep cur s j w = s ∨
      scanStep cur s j w =
        { s with minVerticalDist := some (get_directional_distances cur w).2,
                 closest := some (j, w), isHorizontal := false } := by
  unfold scanStep
  rw [if_neg (by rintro ⟨h1, _⟩; rw [h] at h1; exact lt_irrefl _ h1)]
  split
  · exact Or.inr rfl
  · exact Or.inl rfl

/-- C5, witness: the diagonal pair `w5A`, `w5B` with equal distances
(3, 3), scanned from the initial state. -/
theorem claim_C5_witness :
    scanStep w5A initScan 1 w5B = initScan ∨
      scanStep w5A initScan 1 w5B =
        { initScan with
            minVerticalDist := some (get_directional_distances w5A w5B).2,
            closest := some (1, w5B), isHorizontal := false } :=
  claim_C5 w5A w5B initScan 1
    (by norm_num [get_directional_distances, ratAbs, w5A, w5B])

/-! ### Claims C6 and C10 -/

/-- C6: every LineGroup returned by `extract_structured_text` is ordered by
non-decreasing left edge `x0`, for every input word list and threshold:
each group is passed through `sorted(..., key=lambda w: w['x0'])` before
being appended to the output. -/
theorem claim_C6 (words : List Word) (t : ℚ) :
    ∀ g ∈ extract_structured_text words t, SortedX0 g := by
  intro g hg
  exact extract_groups_sortedX0 words t g hg

/-- C6, witness: the singleton group returned for a one-word input. -/
theorem claim_C6_witness : SortedX0 [w5A] :=
  claim_C6 [w5A] 15 [w5A] (by rw [extract_single_eval]; exact List.mem_singleton_self _)

/-- C10: the LineGroups returned by `extract_structured_text` partition the
input: their concatenation is a permutation of the input word list (no word
occurrence dropped or duplicated), and no returned group is empty. -/
theorem claim_C10 (words : List Word) (t : ℚ) :
    (extract_structured_text words t).flatten.Perm words ∧
      ∀ g ∈ extract_structured_text words t, g ≠ [] :=
  ⟨extract_flatten_perm words t, extract_groups_ne_nil words t⟩

/-- C10, witness: the partition property evaluated on a one-word input. -/
theorem claim_C10_witness : (extract_structured_text [w5A] 15).flatten.Perm [w5A] :=
  (claim_C10 [w5A] 15).1

/-! ### Orchestrator lemmas and claims C7 to C9 -/

theorem nativeTextUsable_of_strip_empty {s : String} (h : strip s = "") :
    nativeTextUsable (some s) = false := by
  show (s != "" && decide (0 < (strip s).length)) = false
  rw [h]
  simp

/-- C7: on every page whose native text is absent, empty, or whitespace
only (its strip is empty), the emitted page section is built by the
geometric fallback from `extract_structured_text` on the page's word boxes
(either the reconstructed lines or the no-text marker), not from the native
text. -/
theorem claim_C7 (i : ℕ) (p : Page)
    (h : ∀ s, p.nativeText = some s → strip s = "") :
    pageSection i p =
      if (extract_structured_text p.words 15).isEmpty then
        "\n--- Page " ++ toString (i + 1) ++ " ---\n[No text found]\n"
      else
        "\n--- Page " ++ toString (i + 1) ++ " ---\n" ++
          linesText (extract_structured_text p.words 15) := by
  have husable : nativeTextUsable p.nativeText = false := by
    cases hnt : p.nativeText with
    | none => rfl
    | some str => exact nativeTextUsable_of_strip_empty (h str hnt)
  unfold pageSection
  rw [husable]
  simp

/-- C7, witness: the page `pageBlank` with whitespace-only native text and
no word boxes triggers the fallback and emits the no-text marker. -/
theorem claim_C7_witness :
    pageSection 0 pageBlank =
      if (extract_structured_text pageBlank.words 15).isEmpty then
        "\n--- Page " ++ toString (0 + 1) ++ " ---\n[No text found]\n"
      else
        "\n--- Page " ++ toString (0 + 1) ++ " ---\n" ++
          linesText (extract_structured_text pageBlank.words 15) :=
  claim_C7 0 pageBlank (by
    intro str hs
    have h3 : some "   " = some str := hs
    rw [← Option.some.inj h3]
    exact rfl)

/-- C8: a document path that does not resolve to a readable file (the
`FileNotFoundError` outcome of `pdfplumber.open`) makes
`extract_text_from_pdf` return the fixed file-not-found string as its
ordinary result; the embedding is a total function on `OpenResult`, the
model of the fact that the `except` clauses convert the exception into a
return value. -/
theorem claim_C8 :
    extract_text_from_pdf OpenResult.fileNotFound =
      "Error: The file was not found. Please provide the correct file path." := rfl

theorem foldl_append_eq (l : List String) :
    ∀ (a b : String), l.foldl (fun x y => x ++ y) (a ++ b) =
      a ++ l.foldl (fun x y => x ++ y) b := by
  induction l with
  | nil => intro a b; rfl
  | cons s rest ih =>
    intro a b
    simp only [List.foldl_cons]
    rw [String.append_assoc, ih]

theorem join_cons (s : String) (l : List String) :
    String.join (s :: l) = s ++ String.join l := by
  show (s :: l).foldl (fun r x => r ++ x) "" = s ++ l.foldl (fun r x => r ++ x) ""
  simp only [List.foldl_cons]
  rw [String.empty_append, ← String.append_empty s, foldl_append_eq]
  rw [String.append_empty]

theorem foldl_sections (l : List (ℕ × Page)) :
    ∀ acc : String,
      l.foldl (fun acc ip => acc ++ pageSection ip.1 ip.2) acc =
        acc ++ String.join (l.map fun ip => pageSection ip.1 ip.2) := by
  induction l with
  | nil => intro acc; exact (String.append_empty acc).symm
  | cons x rest ih =>
    intro acc
    simp only [List.foldl_cons, List.map_cons]
    rw [ih, join_cons, ← String.append_assoc]

theorem pageSection_eq (i : ℕ) (p : Page) :
    pageSection i p = "\n" ++ pageHeader (i + 1) ++ "\n" ++ sectionBody p := by
  have h1 : ("\n--- Page " : String) = "\n" ++ "--- Page " := rfl
  have h2 : (" ---\n" : String) = " ---" ++ "\n" := rfl
  have h3 : (" ---\n[No text found]\n" : String) = " ---" ++ "\n[No text found]\n" := rfl
  have h4 : ("\n[No text found]\n" : String) = "\n" ++ "[No text found]\n" := rfl
  by_cases hA : nativeTextUsable p.nativeText = true
  · unfold pageSection sectionBody pageHeader
    rw [if_pos hA, if_pos hA]
    rw [h1, h2]
    simp only [String.append_assoc]
  · by_cases hB : (extract_structured_text p.words 15).isEmpty = true
    · unfold pageSection sectionBody pageHeader
      rw [if_neg hA, if_neg hA, if_pos hB, if_pos hB]
      rw [h3, h4, h1]
      simp only [String.append_assoc]
    · unfold pageSection sectionBody pageHeader
      rw [if_neg hA, if_neg hA, if_neg hB, if_neg hB]
      rw [h1, h2]
      simp only [String.append_assoc]

/-- C9: for every successfully opened document, the returned string is the
final strip of the concatenation, in page order, of one section per page,
each section prefixed by the header for its 1-based page index; the indices
paired with the pages are exactly `0, 1, ..., N-1` in ascending order, so
the output carries exactly N page headers in ascending order, regardless of
whether each page used native or geometric extraction. -/
theorem claim_C9 (pages : List Page) :
    extract_text_from_pdf (OpenResult.ok pages) =
      strip (String.join (pages.enum.map
        (fun ip => "\n" ++ pageHeader (ip.1 + 1) ++ "\n" ++ sectionBody ip.2))) ∧
      pages.enum.map Prod.fst = List.range pages.length := by
  constructor
  · show strip (pages.enum.foldl (fun acc ip => acc ++ pageSection ip.1 ip.2) "") = _
    rw [foldl_sections, String.empty_append]
    have hfun : (fun ip : ℕ × Page => pageSection ip.1 ip.2) =
        (fun ip : ℕ × Page => "\n" ++ pageHeader (ip.1 + 1) ++ "\n" ++ sectionBody ip.2) :=
      funext (fun ip => pageSection_eq ip.1 ip.2)
    rw [hfun]
  · exact List.enum_map_fst pages

end Pdf
